import Mathlib

/-!
Verification of the OCR field-mapping / verification frontend.

The repository ships two coexisting browser frontends
(`src/unnamed/part_000` and `src/frontend/app.js`) that talk to a
map-and-verify backend.  The definitions below are a shallow embedding of
the algorithmic parts of that frontend code: the DOB canonicalizer
`parseDob`, the DOB re-verification confidence (`dobConf`), the
confidence-panel score fallback and badge thresholds, the per-document
display filtering (`filterKeys` / `collected` / `merged`), and the
`docTypeMap` tables.  JavaScript strings are modelled as Lean `String`
(lists of characters), JS numbers used for scores as `ℚ`, and JS `null`
or `undefined` as `Option`.
-/

/-- Character test for the JavaScript regex class `\d`, i.e. `[0-9]`. -/
def isDigitChar (c : Char) : Bool := 48 ≤ c.toNat && c.toNat ≤ 57

/-- Character test for the JavaScript regex class `\s` (ASCII part:
space, tab, newline, carriage return, vertical tab, form feed). -/
def isSpaceChar (c : Char) : Bool :=
  c.toNat = 32 || c.toNat = 9 || c.toNat = 10 || c.toNat = 13 || c.toNat = 11 || c.toNat = 12

/-- ASCII lower-casing of one character, as JavaScript `toLowerCase`
acts on ASCII input. -/
def toLowerChar (c : Char) : Char :=
  if 65 ≤ c.toNat ∧ c.toNat ≤ 90 then Char.ofNat (c.toNat + 32) else c

/-- Lower-case a whole string (JS `String.prototype.toLowerCase` on ASCII). -/
def lowerStr (s : String) : String := ⟨s.data.map toLowerChar⟩

/-- JavaScript `String.prototype.trim`: drop whitespace from both ends. -/
def jsTrim (l : List Char) : List Char :=
  ((l.dropWhile isSpaceChar).reverse.dropWhile isSpaceChar).reverse

/-- String-level version of `jsTrim`. -/
def trimStr (s : String) : String := ⟨jsTrim s.data⟩

/-- Decimal digit as a character. -/
def digitChar (d : Nat) : Char :=
  match d with
  | 0 => '0' | 1 => '1' | 2 => '2' | 3 => '3' | 4 => '4'
  | 5 => '5' | 6 => '6' | 7 => '7' | 8 => '8' | 9 => '9'
  | _ => '*'

/-- Big-endian decimal digits of `n`, fuel-driven (the fuel is an upper
bound on the number of digits, `n` itself always suffices). -/
def natCharsAux : Nat → Nat → List Char
  | 0, _ => []
  | fuel + 1, n =>
    if n = 0 then [] else natCharsAux fuel (n / 10) ++ [digitChar (n % 10)]

/-- Decimal representation of a natural number, as JavaScript
`String(n)` renders a nonnegative integer. -/
def natChars (n : Nat) : List Char := if n = 0 then ['0'] else natCharsAux n n

/-- Length of the decimal representation: the JS `String(n).length` test
used by `parseDob` to recognize a 4-digit year. -/
def jsLen (n : Nat) : Nat := (natChars n).length

/-- Numeric value of a run of decimal digit characters, as JavaScript
`Number` evaluates a digit string. -/
def charsToNat (l : List Char) : Nat :=
  l.foldl (fun a c => 10 * a + (c.toNat - 48)) 0

/-- JS `String(n).padStart(2, '0')` for the month/day components. -/
def pad2 (n : Nat) : List Char :=
  let s := natChars n
  if s.length < 2 then '0' :: s else s

/-- Accumulator-passing scanner behind `digitRuns`; `acc` holds the
reversed digits of the run currently being read. -/
def digitRunsAux : List Char → List Char → List Nat
  | [], acc => if acc.isEmpty then [] else [charsToNat acc.reverse]
  | c :: rest, acc =>
    if isDigitChar c then digitRunsAux rest (c :: acc)
    else if acc.isEmpty then digitRunsAux rest []
    else charsToNat acc.reverse :: digitRunsAux rest []

/-- Values of the maximal digit runs of a string, in order: the JS
expression `(s.match(/\d+/g) || []).map(Number)` from `parseDob`. -/
def digitRuns (l : List Char) : List Nat := digitRunsAux l []

/-- Attempt to match the regex `dob[^0-9]+` at the head of the list
(`parseDob`'s `replace(/dob[^0-9]+/i, ' ')` on already-lowercased text);
on success returns the remainder after the greedy non-digit run. -/
def dobMatchAt (l : List Char) : Option (List Char) :=
  match l with
  | a :: b :: c :: e :: t =>
    if a = 'd' ∧ b = 'o' ∧ c = 'b' ∧ ¬ (isDigitChar e = true) then
      some ((e :: t).dropWhile (fun x => ! isDigitChar x))
    else none
  | _ => none

/-- First-match replacement of `dob[^0-9]+` by a single space, the
non-global `replace` in `parseDob`. -/
def replaceDob : List Char → List Char
  | [] => []
  | c :: t =>
    match dobMatchAt (c :: t) with
    | some rest => ' ' :: rest
    | none => c :: replaceDob t

/-- Positional year/month/day assignment of `parseDob`: a 4-digit first
component is the year (`[y,m,d]`), else a 4-digit third component
(`[m,d,y]`), else a 4-digit second component (`[m,y,d]`), else `[m,d,y]`
with two-digit years expanded by `2000 + y`.  Returns `(y, m, d)`. -/
def assignYMD (p0 p1 p2 : Nat) : Nat × Nat × Nat :=
  if jsLen p0 = 4 then (p0, p1, p2)
  else if jsLen p2 = 4 then (p2, p0, p1)
  else if jsLen p1 = 4 then (p1, p0, p2)
  else ((if p2 < 100 then 2000 + p2 else p2), p0, p1)

/-- Final range check of `parseDob` (`m` in 1..12, `d` in 1..31). -/
def mkYMD (y m d : Nat) : Option (Nat × Nat × Nat) :=
  if m < 1 ∨ 12 < m ∨ d < 1 ∨ 31 < d then none else some (y, m, d)

/-- Year/month/day computed by `parseDob` of `src/unnamed/part_000`
(lines 654-679) before rendering: lowercase, strip a `dob` label, trim,
take the digit runs, assign positions, swap month/day when the month
slot exceeds 12 but the day slot does not, then range-check. -/
def parseDobYMD (s : String) : Option (Nat × Nat × Nat) :=
  match digitRuns (jsTrim (replaceDob (s.data.map toLowerChar))) with
  | p0 :: p1 :: p2 :: _ =>
    let a := assignYMD p0 p1 p2
    if 12 < a.2.1 ∧ a.2.2 ≤ 12 then mkYMD a.1 a.2.2 a.2.1
    else mkYMD a.1 a.2.1 a.2.2
  | _ => none

/-- Variant of `parseDobYMD` whose month/day swap follows the claim's
wording literally: swap exactly when the month-position component is
greater than 12 and the other component is valid as a month (1..12). -/
def parseDobYMDSpec (s : String) : Option (Nat × Nat × Nat) :=
  match digitRuns (jsTrim (replaceDob (s.data.map toLowerChar))) with
  | p0 :: p1 :: p2 :: _ =>
    let a := assignYMD p0 p1 p2
    if 12 < a.2.1 ∧ 1 ≤ a.2.2 ∧ a.2.2 ≤ 12 then mkYMD a.1 a.2.2 a.2.1
    else mkYMD a.1 a.2.1 a.2.2
  | _ => none

/-- Rendering step of `parseDob`: the template string
`y + "-" + pad(m) + "-" + pad(d)`. -/
def renderDob (y m d : Nat) : String :=
  ⟨natChars y ++ '-' :: (pad2 m ++ '-' :: pad2 d)⟩

/-- The DOB canonicalizer `parseDob` of `src/unnamed/part_000`
(lines 654-679): empty string on unparsable input, otherwise the
canonical `y-MM-DD` rendering of the extracted date. -/
def parseDob (s : String) : String :=
  if s = "" then ""
  else
    match parseDobYMD s with
    | none => ""
    | some (y, m, d) => renderDob y m d

/-- Mapped-field entry as the frontends consume it: either a plain
string or a `{value, confidence}` object (absent confidence is modelled
by `none` and read as 1.0, mirroring
`f.confidence !== undefined ? Number(f.confidence) : 1.0`). -/
structure FieldVal where
  value : String
  confidence : Option ℚ := none
deriving DecidableEq, Repr

/-- Verification object attached to a document result; `score` and
`overall_confidence` may each be absent (non-numeric in JS). -/
structure VerifyInfo where
  score : Option ℚ := none
  overallConfidence : Option ℚ := none
deriving DecidableEq, Repr

/-- Effective confidence of one field in the averaging fallback:
a present numeric confidence, else 1.0. -/
def effConf (f : FieldVal) : ℚ := f.confidence.getD 1

/-- Average-confidence fallback of `renderReview`
(`src/unnamed/part_000` lines 576-581): sum of effective confidences
over the field count, and 0 when there are no fields. -/
def avgConf (fields : List FieldVal) : ℚ :=
  let total := (fields.map effConf).sum
  let count := fields.length
  if count = 0 then 0 else total / (count : ℚ)

/-- Score shown for a document (`src/unnamed/part_000` lines 570-582):
`verification.score` if numeric, else `verification.overall_confidence`
if numeric, else the average-confidence fallback. -/
def panelScore (v : Option VerifyInfo) (fields : List FieldVal) : ℚ :=
  match v with
  | some vr =>
    match vr.score with
    | some s => s
    | none =>
      match vr.overallConfidence with
      | some oc => oc
      | none => avgConf fields
  | none => avgConf fields

/-- Badge class of the confidence panel (`part_000` line 588):
warning below 0.6, success otherwise. -/
def panelBadge (score : ℚ) : String :=
  if score < 3/5 then "bg-warning text-dark" else "bg-success"

/-- JavaScript `Math.round` on a nonnegative rational: half rounds up. -/
def jsRound (q : ℚ) : ℤ := ⌊q + 1/2⌋

/-- Percentage shown next to a document, `Math.round(score * 100)`
(`part_000` line 531/541). -/
def panelPct (score : ℚ) : ℤ := jsRound (score * 100)

/-- Badge class of the extracted-text panel (`part_000` line 546):
computed from the rounded percentage. -/
def docBadge (scorePct : ℤ) : String :=
  if scorePct < 60 then "bg-warning text-dark" else "bg-success"

/-- Modelled from the spec: the repository's backend decision engine
(`backend/core/verifier.py`, not shipped under `src/`) maps the overall
score to a decision with inclusive lower bounds, `MATCH` at 0.85 and
`REVIEW` at 0.60, `MISMATCH` below. -/
def decisionOf (score : ℚ) : String :=
  if 85/100 ≤ score then "MATCH"
  else if 60/100 ≤ score then "REVIEW"
  else "MISMATCH"

/-- DOB re-verification confidence computed by the `saveExtractedBtn`
handler of `src/unnamed/part_000` (lines 681-684): the trimmed form DOB
and the edited text are both canonicalized; if both are non-empty the
confidence is 1.0 on exact equality and 0.55 otherwise, and it stays at
the initial 0.6 when either side fails to parse. -/
def dobConf (userDob newText : String) : ℚ :=
  let normUser := parseDob (trimStr userDob)
  let normEdit := parseDob newText
  if normUser ≠ "" ∧ normEdit ≠ "" then
    (if normUser = normEdit then 1 else 11/20)
  else 3/5

/-- Fields object rebuilt by the handler after a DOB edit
(`part_000` line 685): a single `dob` entry holding the edited text and
the computed confidence. -/
def dobSaveFields (userDob newText : String) : List (String × FieldVal) :=
  [("dob", { value := newText, confidence := some (dobConf userDob newText) })]

/-- Verification object rebuilt by the handler (`part_000` line 686). -/
def dobSaveVerification (userDob newText : String) : VerifyInfo :=
  { score := some (dobConf userDob newText),
    overallConfidence := some (dobConf userDob newText) }

/-- Document-type table of `src/unnamed/part_000` (lines 311 and 637);
the table value combined with the `docTypeMap[key] || null` read, so a
missing key or a falsy value is `none`. -/
def documentTypeMain (key : String) : Option String :=
  if key = "name" then some "aadhar"
  else if key = "address" then some "dl"
  else if key = "dob" then some "birth"
  else if key = "handwritten" then some "handwritten"
  else none

/-- Document-type table of `src/frontend/app.js` (lines 492 and 714),
where the `handwritten` entry is the JS literal `null`, again combined
with the `|| null` read. -/
def documentTypeAlt (key : String) : Option String :=
  if key = "name" then some "aadhar"
  else if key = "address" then some "dl"
  else if key = "dob" then some "birth"
  else none

/-- Per-document display filter table of `renderReview` in
`src/unnamed/part_000` (lines 413-419); `none` (the `handwritten`
branch and unknown keys) means no filtering. -/
def filterKeys (key : String) : Option (List String) :=
  if key = "name" then some ["name", "full_name"]
  else if key = "address" then some ["address", "addr", "city", "state", "pincode"]
  else if key = "dob" then
    some ["dob", "date_of_birth", "date-of-birth", "birth_date", "birthdate", "date"]
  else none

/-- Association-list read of the mapped-fields object. -/
def lookupField (fields : List (String × FieldVal)) (k : String) : Option FieldVal :=
  fields.lookup k

/-- The `collected` object built from the filter keys (`part_000`
lines 421-431): for each allowed key present in the mapped fields whose
trimmed value is non-empty, record the trimmed value. -/
def collectedBase (fks : List String) (fields : List (String × FieldVal)) :
    List (String × String) :=
  fks.filterMap (fun fk =>
    match lookupField fields fk with
    | some v =>
      let t := trimStr v.value
      if t = "" then none else some (fk, t)
    | none => none)

/-- Length of the maximal leading whitespace run (regex `\s*`, greedy). -/
def spaceRun (u : List Char) : Nat := (u.takeWhile isSpaceChar).length

/-- Capture of `([^\n,]+)`: succeeds when the head exists and is neither
a newline nor a comma, capturing the maximal such run. -/
def tryCapture (v : List Char) : Option (List Char) :=
  match v with
  | [] => none
  | c :: _ =>
    if c = '\n' ∨ c = ',' then none
    else some (v.takeWhile (fun x => ! (x = '\n' || x = ',')))

/-- Backtracking over a greedy `\s*` before the capture: try consuming
`j` whitespace characters, giving characters back one at a time. -/
def tryFrom (v : List Char) : Nat → Option (List Char)
  | 0 => tryCapture v
  | j + 1 =>
    match tryCapture (v.drop (j + 1)) with
    | some cap => some cap
    | none => tryFrom v j

/-- Matcher for `\s*([^\n,]+)` against a prefix of `v`. -/
def trySpacesCapture (v : List Char) : Option (List Char) := tryFrom v (spaceRun v)

/-- Matcher for `[:\-]?\s*([^\n,]+)`: the optional separator is greedy,
so it is consumed first and skipped only if no match follows. -/
def trySepCapture (v : List Char) : Option (List Char) :=
  match v with
  | c :: t =>
    if c = ':' ∨ c = '-' then
      match trySpacesCapture t with
      | some cap => some cap
      | none => trySpacesCapture v
    else trySpacesCapture v
  | [] => trySpacesCapture v

/-- Backtracking over the first greedy `\s*` of the tail pattern. -/
def tailFrom (v : List Char) : Nat → Option (List Char)
  | 0 => trySepCapture v
  | j + 1 =>
    match trySepCapture (v.drop (j + 1)) with
    | some cap => some cap
    | none => tailFrom v j

/-- Matcher for the tail `\s*[:\-]?\s*([^\n,]+)` of the city/state
surfacing regexes in `renderReview` (`part_000` lines 437, 441). -/
def matchTail (u : List Char) : Option (List Char) := tailFrom u (spaceRun u)

/-- Case-insensitive literal match: does `u` start with `lit` (given in
lowercase), and if so what remains? -/
def matchLit (lit : List Char) (u : List Char) : Option (List Char) :=
  if (u.take lit.length).map toLowerChar = lit then some (u.drop lit.length) else none

/-- Scan for the first position where the literal label matches and the
tail pattern succeeds, like a non-global case-insensitive
`rt.match(/<label>\s*[:\-]?\s*([^\n,]+)/i)`; returns capture group 1. -/
def findLabelValue (lab : List Char) : List Char → Option (List Char)
  | [] => none
  | c :: t =>
    match matchLit lab (c :: t) with
    | some rest =>
      match matchTail rest with
      | some cap => some cap
      | none => findLabelValue lab t
    | none => findLabelValue lab t

/-- Capture of `(\d{4,10})`: at least four digits at the head, greedily
taking at most ten. -/
def tryDigitsCapture (v : List Char) : Option (List Char) :=
  let run := v.takeWhile isDigitChar
  if 4 ≤ run.length then some (run.take 10) else none

/-- Matcher for the tail `\s*[:\-]?\s*(\d{4,10})` of the pincode
surfacing regex (`part_000` line 445); backtracking into the whitespace
or separator cannot produce digits, so the greedy path is the only
candidate. -/
def matchPinTail (u : List Char) : Option (List Char) :=
  let v := u.drop (spaceRun u)
  match v with
  | c :: t =>
    if c = ':' ∨ c = '-' then
      match tryDigitsCapture (t.drop (spaceRun t)) with
      | some cap => some cap
      | none => tryDigitsCapture v
    else tryDigitsCapture v
  | [] => none

/-- Label alternation `(?:pin\s*code|pincode|zip\s*code|zipcode|zip)` of
the pincode regex; inside `pin\s*code` only the maximal whitespace run
can be followed by `code`, so the match is deterministic. -/
def matchPinLabel (u : List Char) : Option (List Char) :=
  match matchLit "pin".data u with
  | some r =>
    match matchLit "code".data (r.drop (spaceRun r)) with
    | some r2 => some r2
    | none =>
      match matchLit "zip".data u with
      | some r3 =>
        match matchLit "code".data (r3.drop (spaceRun r3)) with
        | some r4 => some r4
        | none => some r3
      | none => none
  | none =>
    match matchLit "zip".data u with
    | some r3 =>
      match matchLit "code".data (r3.drop (spaceRun r3)) with
      | some r4 => some r4
      | none => some r3
    | none => none

/-- Scan for the pincode label-and-digits pattern, returning capture
group 1 (the digit run). -/
def findPincode : List Char → Option (List Char)
  | [] => none
  | c :: t =>
    match matchPinLabel (c :: t) with
    | some rest =>
      match matchPinTail rest with
      | some cap => some cap
      | none => findPincode t
    | none => findPincode t

/-- Trimmed group-1 capture for `city`/`state` surfacing, as a string. -/
def labelFromRaw (lab : String) (rawText : String) : Option String :=
  (findLabelValue lab.data rawText.data).map (fun cap => (⟨jsTrim cap⟩ : String))

/-- Trimmed pincode capture from the raw text. -/
def pincodeFromRaw (rawText : String) : Option String :=
  (findPincode rawText.data).map (fun cap => (⟨jsTrim cap⟩ : String))

/-- One `if (!collected.k) { ... collected.k = m[1].trim() }` step: add
the candidate only when the key is absent and the trimmed capture is
truthy (non-empty). -/
def addIfMissing (col : List (String × String)) (k : String) (cand : Option String) :
    List (String × String) :=
  if (col.lookup k).isSome then col
  else
    match cand with
    | some v => if v = "" then col else col ++ [(k, v)]
    | none => col

/-- The `collected` object for an address document after the raw-text
surfacing of missing city/state/pincode (`part_000` lines 434-448). -/
def collectedAddress (fields : List (String × FieldVal)) (rawText : String) :
    List (String × String) :=
  let col := collectedBase ["address", "addr", "city", "state", "pincode"] fields
  if rawText = "" then col
  else
    let col := addIfMissing col "city" (labelFromRaw "city" rawText)
    let col := addIfMissing col "state" (labelFromRaw "state" rawText)
    addIfMissing col "pincode" (pincodeFromRaw rawText)

/-- Displayed field set for a document whose key has a filter list:
the plain `collected` object, with the extra raw-text surfacing on the
address document. -/
def collectedFor (key : String) (fields : List (String × FieldVal)) (rawText : String) :
    List (String × String) :=
  match filterKeys key with
  | some fks => if key = "address" then collectedAddress fields rawText else collectedBase fks fields
  | none => []

/-- Anchored replacement `s.replace(/^id:\s*/i, '')` used for the email
field of a handwritten document. -/
def stripIdPrefix (s : List Char) : List Char :=
  match s with
  | a :: b :: c :: t =>
    if toLowerChar a = 'i' ∧ toLowerChar b = 'd' ∧ c = ':' then t.dropWhile isSpaceChar
    else a :: b :: c :: t
  | _ => s

/-- The `normVal` helper of the unfiltered display branch (`part_000`
lines 469-478): trim the value, and on a handwritten document strip a
leading `id:` label from the email field. -/
def normVal (docKey k : String) (fv : FieldVal) : String :=
  let s := trimStr fv.value
  if s = "" then ""
  else if docKey = "handwritten" ∧ k = "email" then ⟨stripIdPrefix s.data⟩
  else s

/-- The `merged` object of the handwritten display branch (`part_000`
lines 496-502): every mapped field in order, key lowercased, value
normalized, empty values skipped, first occurrence of a key winning. -/
def mergedFields (docKey : String) (fields : List (String × FieldVal)) :
    List (String × String) :=
  fields.foldl (fun acc kv =>
    let keyLc := lowerStr kv.1
    let v := normVal docKey kv.1 kv.2
    if v = "" then acc
    else if (acc.lookup keyLc).isSome then acc
    else acc ++ [(keyLc, v)]) []

theorem digitChar_toNat {d : Nat} (h : d < 10) : (digitChar d).toNat = 48 + d := by
  interval_cases d <;> rfl

theorem isDigitChar_digitChar {d : Nat} (h : d < 10) : isDigitChar (digitChar d) = true := by
  interval_cases d <;> rfl

theorem natCharsAux_digit {fuel n : Nat} {c : Char} (h : c ∈ natCharsAux fuel n) :
    isDigitChar c = true := by
  induction fuel generalizing n with
  | zero => simp [natCharsAux] at h
  | succ fuel ih =>
    rw [natCharsAux] at h
    split at h
    · simp at h
    · rcases List.mem_append.1 h with h1 | h1
      · exact ih h1
      · have hd : n % 10 < 10 := Nat.mod_lt _ (by norm_num)
        simp at h1
        subst h1
        exact isDigitChar_digitChar hd

theorem natChars_digit {n : Nat} {c : Char} (h : c ∈ natChars n) : isDigitChar c = true := by
  rw [natChars] at h
  split at h
  · simp at h; subst h; rfl
  · exact natCharsAux_digit h

theorem natCharsAux_zero (fuel : Nat) : natCharsAux fuel 0 = [] := by
  cases fuel <;> simp [natCharsAux]

theorem natCharsAux_ne_nil {fuel n : Nat} (h0 : 0 < n) (hf : n ≤ fuel) :
    natCharsAux fuel n ≠ [] := by
  cases fuel with
  | zero => omega
  | succ fuel =>
    rw [natCharsAux]
    split
    · omega
    · simp

theorem natChars_ne_nil (n : Nat) : natChars n ≠ [] := by
  rw [natChars]
  split
  · simp
  · exact natCharsAux_ne_nil (by omega) le_rfl

theorem natCharsAux_foldl {fuel n : Nat} (hf : n ≤ fuel) (a : Nat) :
    (natCharsAux fuel n).foldl (fun x c => 10 * x + (c.toNat - 48)) a =
      a * 10 ^ (natCharsAux fuel n).length + n := by
  induction fuel generalizing n a with
  | zero =>
    have : n = 0 := by omega
    subst this
    simp [natCharsAux]
  | succ fuel ih =>
    rw [natCharsAux]
    split
    · simp [*]
    · have hlt : n / 10 ≤ fuel := by
        have := Nat.div_lt_self (by omega : 0 < n) (by norm_num : 1 < 10)
        omega
      rw [List.foldl_append, ih hlt]
      have hd : n % 10 < 10 := Nat.mod_lt _ (by norm_num)
      simp only [List.foldl_cons, List.foldl_nil, List.length_append, List.length_cons,
        List.length_nil, digitChar_toNat hd]
      have : 48 + n % 10 - 48 = n % 10 := by omega
      rw [this, pow_succ]
      have := Nat.div_add_mod n 10
      ring_nf
      omega

theorem charsToNat_natChars (n : Nat) : charsToNat (natChars n) = n := by
  rw [natChars, charsToNat]
  split
  · simp_all
  · rw [natCharsAux_foldl le_rfl]
    simp

theorem natCharsAux_lt_pow {fuel n : Nat} (hf : n ≤ fuel) :
    n < 10 ^ (natCharsAux fuel n).length := by
  induction fuel generalizing n with
  | zero => simpa [natCharsAux] using by omega
  | succ fuel ih =>
    rw [natCharsAux]
    split
    · simp; omega
    · have hlt : n / 10 ≤ fuel := by
        have := Nat.div_lt_self (by omega : 0 < n) (by norm_num : 1 < 10)
        omega
      have h1 := ih hlt
      simp only [List.length_append, List.length_cons, List.length_nil]
      have h2 := Nat.div_add_mod n 10
      have h3 : n % 10 < 10 := Nat.mod_lt _ (by norm_num)
      calc n = 10 * (n / 10) + n % 10 := h2.symm
      _ < 10 * (10 ^ (natCharsAux fuel (n / 10)).length) := by omega
      _ = 10 ^ ((natCharsAux fuel (n / 10)).length + 1) := by ring
  
theorem natCharsAux_pow_le {fuel n : Nat} (h0 : 0 < n) (hf : n ≤ fuel) :
    10 ^ ((natCharsAux fuel n).length - 1) ≤ n := by
  induction fuel generalizing n with
  | zero => omega
  | succ fuel ih =>
    rw [natCharsAux]
    split
    · omega
    · simp only [List.length_append, List.length_cons, List.length_nil]
      by_cases hq : n / 10 = 0
      · rw [hq, natCharsAux_zero]
        simp
        omega
      · have hlt : n / 10 ≤ fuel := by
          have := Nat.div_lt_self (by omega : 0 < n) (by norm_num : 1 < 10)
          omega
        have h1 := ih (by omega : 0 < n / 10) hlt
        have hne := natCharsAux_ne_nil (by omega : 0 < n / 10) hlt
        have hlen : 1 ≤ (natCharsAux fuel (n / 10)).length := by
          cases hh : natCharsAux fuel (n / 10) with
          | nil => exact absurd hh hne
          | cons a t => simp
        have : (natCharsAux fuel (n / 10)).length + 1 - 1 =
            ((natCharsAux fuel (n / 10)).length - 1) + 1 := by omega
        rw [this, pow_succ]
        have h2 := Nat.div_add_mod n 10
        calc 10 ^ ((natCharsAux fuel (n / 10)).length - 1) * 10
            ≤ (n / 10) * 10 := by exact Nat.mul_le_mul_right 10 h1
        _ ≤ n := by omega

theorem jsLen_eq_four_iff (n : Nat) : jsLen n = 4 ↔ 1000 ≤ n ∧ n ≤ 9999 := by
  rw [jsLen, natChars]
  split
  · subst_vars; simp
  · constructor
    · intro h
      have h1 := natCharsAux_lt_pow (le_refl n)
      have h2 := natCharsAux_pow_le (by omega : 0 < n) (le_refl n)
      rw [h] at h1 h2
      norm_num at h1 h2
      omega
    · intro ⟨h1, h2⟩
      have ha := natCharsAux_lt_pow (le_refl n)
      have hb := natCharsAux_pow_le (by omega : 0 < n) (le_refl n)
      set L := (natCharsAux n n).length with hL
      rcases Nat.lt_or_ge L 4 with hc | hc
      · interval_cases L <;> norm_num at ha <;> omega
      · rcases Nat.eq_or_lt_of_le hc with hc | hc
        · omega
        · exfalso
          have : 10 ^ 4 ≤ 10 ^ (L - 1) := by
            apply Nat.pow_le_pow_right (by norm_num)
            omega
          norm_num at this
          omega

theorem jsLen_ne_four_of_lt {n : Nat} (h : n < 1000) : jsLen n ≠ 4 := by
  intro hc
  rcases (jsLen_eq_four_iff n).1 hc with ⟨h1, _⟩
  omega

theorem charsToNat_cons_zero (l : List Char) : charsToNat ('0' :: l) = charsToNat l := rfl

theorem charsToNat_pad2 (n : Nat) : charsToNat (pad2 n) = n := by
  rw [pad2]
  split
  · rw [charsToNat_cons_zero, charsToNat_natChars]
  · exact charsToNat_natChars n

theorem pad2_digit {n : Nat} {c : Char} (h : c ∈ pad2 n) : isDigitChar c = true := by
  rw [pad2] at h
  split at h
  · rcases List.mem_cons.1 h with h1 | h1
    · subst h1; rfl
    · exact natChars_digit h1
  · exact natChars_digit h

theorem pad2_ne_nil (n : Nat) : pad2 n ≠ [] := by
  rw [pad2]
  split
  · simp
  · exact natChars_ne_nil n

theorem natChars_length_le {n b : Nat} (h : n < 10 ^ b) (hb : 0 < b) :
    (natChars n).length ≤ b := by
  rw [natChars]
  split
  · simpa using hb
  · by_contra hc
    push_neg at hc
    have h2 := natCharsAux_pow_le (by omega : 0 < n) (le_refl n)
    have : 10 ^ b ≤ 10 ^ ((natCharsAux n n).length - 1) := by
      apply Nat.pow_le_pow_right (by norm_num)
      omega
    omega

theorem pad2_length {n : Nat} (h : n < 100) : (pad2 n).length = 2 := by
  have h1 : (natChars n).length ≤ 2 := natChars_length_le (by norm_num; omega) (by norm_num)
  have h2 : natChars n ≠ [] := natChars_ne_nil n
  have h3 : 1 ≤ (natChars n).length := by
    cases hh : natChars n with
    | nil => exact absurd hh h2
    | cons a t => simp
  rw [pad2]
  split
  · simp only [List.length_cons]
    omega
  · omega

theorem digitRunsAux_digits_append {A : List Char} (hA : ∀ c ∈ A, isDigitChar c = true) :
    ∀ (l acc : List Char), digitRunsAux (A ++ l) acc = digitRunsAux l (A.reverse ++ acc) := by
  induction A with
  | nil => intro l acc; simp
  | cons a t ih =>
    intro l acc
    have ha : isDigitChar a = true := hA a (by simp)
    simp only [List.cons_append, digitRunsAux, ha, if_pos, List.append_eq]
    rw [ih (fun c hc => hA c (by simp [hc])) l (a :: acc)]
    simp

theorem digitRunsAux_all_digits {A : List Char} (hA : ∀ c ∈ A, isDigitChar c = true)
    (hne : A ≠ []) : digitRunsAux A [] = [charsToNat A] := by
  have h := digitRunsAux_digits_append hA [] []
  rw [List.append_nil] at h
  rw [h]
  simp [digitRunsAux, List.isEmpty_iff, hne]

theorem digitRuns_render {y m d : Nat} :
    digitRuns (natChars y ++ '-' :: (pad2 m ++ '-' :: pad2 d)) = [y, m, d] := by
  have hdash : isDigitChar '-' = false := rfl
  rw [digitRuns]
  rw [digitRunsAux_digits_append (fun c hc => natChars_digit hc)]
  rw [List.append_nil]
  have hy : ((natChars y).reverse).isEmpty = false := by
    simp [List.isEmpty_iff, natChars_ne_nil y]
  simp only [digitRunsAux, hdash, Bool.false_eq_true, if_neg, hy, List.reverse_reverse,
    if_false]
  rw [charsToNat_natChars]
  rw [digitRunsAux_digits_append (fun c hc => pad2_digit hc)]
  rw [List.append_nil]
  have hm : ((pad2 m).reverse).isEmpty = false := by
    simp [List.isEmpty_iff, pad2_ne_nil m]
  simp only [digitRunsAux, hdash, Bool.false_eq_true, if_neg, hm, List.reverse_reverse,
    if_false]
  rw [charsToNat_pad2]
  rw [digitRunsAux_all_digits (fun c hc => pad2_digit hc) (pad2_ne_nil d)]
  rw [charsToNat_pad2]

theorem listMapSelf {α : Type} {f : α → α} {l : List α} (h : ∀ c ∈ l, f c = c) :
    l.map f = l := by
  induction l with
  | nil => rfl
  | cons a t ih => simp_all

theorem dropWhileSelf {p : Char → Bool} {l : List Char} (h : ∀ c ∈ l, p c = false) :
    l.dropWhile p = l := by
  cases l with
  | nil => rfl
  | cons a t =>
    rw [List.dropWhile_cons_of_neg]
    simp [h a (by simp)]

theorem jsTrim_eq_self {l : List Char} (h : ∀ c ∈ l, isSpaceChar c = false) : jsTrim l = l := by
  rw [jsTrim, dropWhileSelf h, dropWhileSelf (fun c hc => h c (List.mem_reverse.1 hc))]
  simp

theorem dobMatchAt_none {c : Char} {t : List Char} (h : c ≠ 'd') :
    dobMatchAt (c :: t) = none := by
  match t with
  | [] => rfl
  | [b] => rfl
  | [b, c2] => rfl
  | b :: c2 :: e :: t4 => simp [dobMatchAt, h]

theorem replaceDob_eq_self {l : List Char} (h : ∀ c ∈ l, c ≠ 'd') : replaceDob l = l := by
  induction l with
  | nil => rfl
  | cons a t ih =>
    simp only [replaceDob]
    rw [dobMatchAt_none (h a (by simp))]
    rw [ih (fun c hc => h c (by simp [hc]))]

theorem renderDob_char {y m d : Nat} {c : Char}
    (h : c ∈ natChars y ++ '-' :: (pad2 m ++ '-' :: pad2 d)) :
    isDigitChar c = true ∨ c = '-' := by
  rcases List.mem_append.1 h with h1 | h1
  · exact Or.inl (natChars_digit h1)
  · rcases List.mem_cons.1 h1 with h1 | h1
    · exact Or.inr h1
    · rcases List.mem_append.1 h1 with h2 | h2
      · exact Or.inl (pad2_digit h2)
      · rcases List.mem_cons.1 h2 with h2 | h2
        · exact Or.inr h2
        · exact Or.inl (pad2_digit h2)

theorem renderDob_char_toNat {y m d : Nat} {c : Char}
    (h : c ∈ natChars y ++ '-' :: (pad2 m ++ '-' :: pad2 d)) :
    45 ≤ c.toNat ∧ c.toNat ≤ 57 := by
  rcases renderDob_char h with h1 | h1
  · rw [isDigitChar] at h1
    simp at h1
    omega
  · subst h1
    exact ⟨by decide, by decide⟩

theorem parseDobYMD_render {y m d : Nat} (hy1 : 1000 ≤ y) (hy2 : y ≤ 9999)
    (hm1 : 1 ≤ m) (hm2 : m ≤ 12) (hd1 : 1 ≤ d) (hd2 : d ≤ 31) :
    parseDobYMD (renderDob y m d) = some (y, m, d) := by
  rw [parseDobYMD]
  have hdata : (renderDob y m d).data = natChars y ++ '-' :: (pad2 m ++ '-' :: pad2 d) := rfl
  rw [hdata]
  rw [listMapSelf (fun c hc => by
    rw [toLowerChar]
    rw [if_neg]
    have := renderDob_char_toNat hc
    omega)]
  rw [replaceDob_eq_self (fun c hc => by
    intro hcd
    have := renderDob_char_toNat hc
    subst hcd
    simp at this)]
  rw [jsTrim_eq_self (fun c hc => by
    have := renderDob_char_toNat hc
    rw [isSpaceChar]
    simp
    omega)]
  rw [digitRuns_render]
  have hyl : jsLen y = 4 := (jsLen_eq_four_iff y).2 ⟨hy1, hy2⟩
  simp only [assignYMD, hyl, if_pos, if_true]
  rw [if_neg (by simp; omega)]
  rw [mkYMD, if_neg (by omega)]

theorem mkYMD_bounds {y m d y2 m2 d2 : Nat} (h : mkYMD y m d = some (y2, m2, d2)) :
    y2 = y ∧ m2 = m ∧ d2 = d ∧ 1 ≤ m ∧ m ≤ 12 ∧ 1 ≤ d ∧ d ≤ 31 := by
  rw [mkYMD] at h
  split at h
  · exact absurd h (by simp)
  · simp at h
    omega

theorem parseDobYMD_bounds {s : String} {y m d : Nat}
    (h : parseDobYMD s = some (y, m, d)) :
    1 ≤ m ∧ m ≤ 12 ∧ 1 ≤ d ∧ d ≤ 31 := by
  rw [parseDobYMD] at h
  split at h
  · dsimp only at h
    split at h
    · have := mkYMD_bounds h
      omega
    · have := mkYMD_bounds h
      omega
  · exact absurd h (by simp)

theorem parseDobYMD_eq_spec (s : String) : parseDobYMD s = parseDobYMDSpec s := by
  rw [parseDobYMD, parseDobYMDSpec]
  split
  · set a := assignYMD _ _ _ with ha
    by_cases h1 : 12 < a.2.1 ∧ a.2.2 ≤ 12
    · rw [if_pos h1]
      by_cases h2 : 1 ≤ a.2.2
      · rw [if_pos ⟨h1.1, h2, h1.2⟩]
      · rw [if_neg (by omega)]
        have hz : a.2.2 = 0 := by omega
        rw [mkYMD, mkYMD, if_pos (by omega), if_pos (by omega)]
    · rw [if_neg h1, if_neg (by omega)]
  · rfl

theorem renderDob_ne_empty (y m d : Nat) : renderDob y m d ≠ "" := by
  intro h
  have h2 : (renderDob y m d).data = "".data := by rw [h]
  have h3 : (renderDob y m d).data = natChars y ++ '-' :: (pad2 m ++ '-' :: pad2 d) := rfl
  have h4 : "".data = ([] : List Char) := rfl
  rw [h3, h4] at h2
  have := natChars_ne_nil y
  cases hh : natChars y with
  | nil => exact this hh
  | cons a t => rw [hh] at h2; simp at h2

theorem parseDob_eq_render {s : String} {y m d : Nat}
    (h : parseDobYMD s = some (y, m, d)) : parseDob s = renderDob y m d := by
  have hs : s ≠ "" := by
    intro he
    subst he
    rw [show parseDobYMD "" = none from rfl] at h
    exact absurd h (by simp)
  rw [parseDob, if_neg hs, h]

theorem parseDob_eq_empty {s : String} (h : parseDobYMD s = none) : parseDob s = "" := by
  rw [parseDob]
  split
  · rfl
  · rw [h]

theorem parseDob_idem_of_year {s : String}
    (h : ∀ y m d, parseDobYMD s = some (y, m, d) → 1000 ≤ y ∧ y ≤ 9999) :
    parseDob (parseDob s) = parseDob s := by
  cases hp : parseDobYMD s with
  | none =>
    rw [parseDob_eq_empty hp]
    rfl
  | some ymd =>
    obtain ⟨y, m, d⟩ := ymd
    have hy := h y m d hp
    have hb := parseDobYMD_bounds hp
    rw [parseDob_eq_render hp]
    have hr : parseDobYMD (renderDob y m d) = some (y, m, d) :=
      parseDobYMD_render hy.1 hy.2 hb.1 hb.2.1 hb.2.2.1 hb.2.2.2
    rw [parseDob_eq_render hr]

theorem parseDob_length {s : String} {y m d : Nat}
    (h : parseDobYMD s = some (y, m, d)) :
    (parseDob s).length = jsLen y + 6 := by
  have hb := parseDobYMD_bounds h
  rw [parseDob_eq_render h]
  have hdata : (renderDob y m d).length =
      (natChars y ++ '-' :: (pad2 m ++ '-' :: pad2 d)).length := rfl
  rw [hdata]
  simp only [List.length_append, List.length_cons]
  rw [pad2_length (by omega), pad2_length (by omega)]
  simp only [jsLen]

theorem collectedBase_mem {fks : List String} {fields : List (String × FieldVal)}
    {k v : String} (h : (k, v) ∈ collectedBase fks fields) :
    k ∈ fks ∧ ∃ fv, lookupField fields k = some fv ∧ v = trimStr fv.value := by
  rw [collectedBase] at h
  rcases List.mem_filterMap.1 h with ⟨fk, hfk, heq⟩
  rcases hl : lookupField fields fk with _ | fv
  · rw [hl] at heq
    simp at heq
  · rw [hl] at heq
    dsimp only at heq
    split at heq
    · exact absurd heq (by simp)
    · simp at heq
      obtain ⟨hk, hv⟩ := heq
      subst hk
      exact ⟨hfk, fv, hl, hv.symm⟩

theorem addIfMissing_mem {col : List (String × String)} {k0 k v : String}
    {cand : Option String} (h : (k, v) ∈ addIfMissing col k0 cand) :
    (k, v) ∈ col ∨ (k = k0 ∧ cand = some v ∧ v ≠ "") := by
  rw [addIfMissing.eq_def] at h
  split at h
  · exact Or.inl h
  · split at h
    · rename_i w
      split at h
      · exact Or.inl h
      · rename_i hne
        rcases List.mem_append.1 h with h1 | h1
        · exact Or.inl h1
        · simp at h1
          obtain ⟨hk, hv⟩ := h1
          subst hv
          exact Or.inr ⟨hk, rfl, hne⟩
    · exact Or.inl h

theorem tryCapture_substr {v cap : List Char} (h : tryCapture v = some cap) : cap <:+: v := by
  rw [tryCapture.eq_def] at h
  split at h
  · exact absurd h (by simp)
  · split at h
    · exact absurd h (by simp)
    · simp at h
      subst h
      exact (List.takeWhile_prefix _).isInfix

theorem tryFrom_substr {v cap : List Char} {j : Nat} (h : tryFrom v j = some cap) :
    cap <:+: v := by
  induction j with
  | zero => exact tryCapture_substr h
  | succ j ih =>
    rw [tryFrom] at h
    split at h
    · rename_i heq
      cases h
      exact (tryCapture_substr heq).trans (List.drop_suffix _ _).isInfix
    · exact ih h

theorem trySpacesCapture_substr {v cap : List Char} (h : trySpacesCapture v = some cap) :
    cap <:+: v := tryFrom_substr h

theorem trySepCapture_substr {v cap : List Char} (h : trySepCapture v = some cap) :
    cap <:+: v := by
  rw [trySepCapture.eq_def] at h
  split at h
  · rename_i c t
    split at h
    · split at h
      · rename_i heq
        cases h
        exact (trySpacesCapture_substr heq).trans ⟨[c], [], by simp⟩
      · exact trySpacesCapture_substr h
    · exact trySpacesCapture_substr h
  · exact trySpacesCapture_substr h

theorem tailFrom_substr {v cap : List Char} {j : Nat} (h : tailFrom v j = some cap) :
    cap <:+: v := by
  induction j with
  | zero => exact trySepCapture_substr h
  | succ j ih =>
    rw [tailFrom] at h
    split at h
    · rename_i heq
      cases h
      exact (trySepCapture_substr heq).trans (List.drop_suffix _ _).isInfix
    · exact ih h

theorem matchTail_substr {u cap : List Char} (h : matchTail u = some cap) : cap <:+: u :=
  tailFrom_substr h

theorem matchLit_suffix {lit u r : List Char} (h : matchLit lit u = some r) : r <:+ u := by
  rw [matchLit] at h
  split at h
  · simp at h
    subst h
    exact List.drop_suffix _ _
  · exact absurd h (by simp)

theorem findLabelValue_substr {lab l cap : List Char} (h : findLabelValue lab l = some cap) :
    cap <:+: l := by
  induction l with
  | nil => simp [findLabelValue] at h
  | cons c t ih =>
    rw [findLabelValue] at h
    split at h
    · rename_i rest hlit
      split at h
      · rename_i heq
        cases h
        exact ((matchTail_substr heq).trans (matchLit_suffix hlit).isInfix)
      · exact (ih h).trans ⟨[c], [], by simp⟩
    · exact (ih h).trans ⟨[c], [], by simp⟩

theorem tryDigitsCapture_substr {v cap : List Char} (h : tryDigitsCapture v = some cap) :
    cap <:+: v := by
  rw [tryDigitsCapture] at h
  split at h
  · simp at h
    subst h
    exact ((List.take_prefix _ _).trans (List.takeWhile_prefix _)).isInfix
  · exact absurd h (by simp)

theorem matchPinTail_substr {u cap : List Char} (h : matchPinTail u = some cap) :
    cap <:+: u := by
  rw [matchPinTail.eq_def] at h
  dsimp only at h
  split at h
  · rename_i c t heq
    have hsub : c :: t <:+ u := by
      rw [← heq]
      exact List.drop_suffix _ _
    split at h
    · split at h
      · rename_i hcap
        cases h
        refine (tryDigitsCapture_substr hcap).trans ?_
        refine ( List.IsInfix.trans ?_ hsub.isInfix)
        exact ((List.drop_suffix _ _).trans ⟨[c], by simp⟩).isInfix
      · exact (tryDigitsCapture_substr h).trans (List.drop_suffix _ _).isInfix
    · exact (tryDigitsCapture_substr h).trans (List.drop_suffix _ _).isInfix
  · exact absurd h (by simp)

theorem findPincode_substr {l cap : List Char} (h : findPincode l = some cap) :
    cap <:+: l := by
  induction l with
  | nil => simp [findPincode] at h
  | cons c t ih =>
    rw [findPincode] at h
    split at h
    · rename_i rest hlab
      split at h
      · rename_i heq
        cases h
        have hrest : rest <:+ c :: t := by
          rw [matchPinLabel] at hlab
          split at hlab
          · rename_i r hpin
            split at hlab
            · rename_i hcode
              cases hlab
              exact (matchLit_suffix hcode).trans
                ((List.drop_suffix _ _).trans (matchLit_suffix hpin))
            · split at hlab
              · rename_i r3 hzip
                split at hlab
                · rename_i hcode2
                  cases hlab
                  exact (matchLit_suffix hcode2).trans
                    ((List.drop_suffix _ _).trans (matchLit_suffix hzip))
                · cases hlab
                  exact matchLit_suffix hzip
              · exact absurd hlab (by simp)
          · split at hlab
            · rename_i r3 hzip
              split at hlab
              · rename_i hcode2
                cases hlab
                exact (matchLit_suffix hcode2).trans
                  ((List.drop_suffix _ _).trans (matchLit_suffix hzip))
              · cases hlab
                exact matchLit_suffix hzip
            · exact absurd hlab (by simp)
        exact (matchPinTail_substr heq).trans hrest.isInfix
      · exact (ih h).trans ⟨[c], [], by simp⟩
    · exact (ih h).trans ⟨[c], [], by simp⟩

theorem jsTrim_substr (l : List Char) : jsTrim l <:+: l := by
  rw [jsTrim]
  have h1 : l.dropWhile isSpaceChar <:+ l := List.dropWhile_suffix _
  have h2 : (l.dropWhile isSpaceChar).reverse.dropWhile isSpaceChar <:+
      (l.dropWhile isSpaceChar).reverse := List.dropWhile_suffix _
  rcases h2 with ⟨t, ht⟩
  have : ((l.dropWhile isSpaceChar).reverse.dropWhile isSpaceChar).reverse <+:
      l.dropWhile isSpaceChar := by
    refine ⟨t.reverse, ?_⟩
    have := congrArg List.reverse ht
    simpa using this
  exact this.isInfix.trans h1.isInfix

theorem labelFromRaw_substr {lab rt v : String} (h : labelFromRaw lab rt = some v) :
    v.data <:+: rt.data := by
  rw [labelFromRaw] at h
  rcases hf : findLabelValue lab.data rt.data with _ | cap
  · rw [hf] at h
    exact absurd h (by simp)
  · rw [hf] at h
    simp at h
    subst h
    exact (jsTrim_substr cap).trans (findLabelValue_substr hf)

theorem pincodeFromRaw_substr {rt v : String} (h : pincodeFromRaw rt = some v) :
    v.data <:+: rt.data := by
  rw [pincodeFromRaw] at h
  rcases hf : findPincode rt.data with _ | cap
  · rw [hf] at h
    exact absurd h (by simp)
  · rw [hf] at h
    simp at h
    subst h
    exact (jsTrim_substr cap).trans (findPincode_substr hf)

theorem lookup_append_isSome {l1 l2 : List (String × String)} {k : String}
    (h : (l1.lookup k).isSome) : ((l1 ++ l2).lookup k).isSome := by
  induction l1 with
  | nil => simp [List.lookup] at h
  | cons a t ih =>
    rw [List.cons_append, List.lookup]
    rw [List.lookup] at h
    split at h
    · simp
    · simpa using ih h

theorem lookup_append_single {l : List (String × String)} {k v : String} :
    ((l ++ [(k, v)]).lookup k).isSome := by
  induction l with
  | nil => simp [List.lookup]
  | cons a t ih =>
    rw [List.cons_append, List.lookup]
    split
    · simp
    · exact ih

theorem mergedStep_mono {dk : String} {acc : List (String × String)}
    {kv : String × FieldVal} {k : String} (h : (acc.lookup k).isSome) :
    (((fun acc kv =>
        let keyLc := lowerStr kv.1
        let v := normVal dk kv.1 kv.2
        if v = "" then acc
        else if (acc.lookup keyLc).isSome then acc
        else acc ++ [(keyLc, v)]) acc kv).lookup k).isSome := by
  dsimp only
  split
  · exact h
  · split
    · exact h
    · exact lookup_append_isSome h

theorem mergedFoldl_mono {dk : String} {k : String} :
    ∀ (l : List (String × FieldVal)) (acc : List (String × String)),
      (acc.lookup k).isSome →
      ((l.foldl (fun acc kv =>
          let keyLc := lowerStr kv.1
          let v := normVal dk kv.1 kv.2
          if v = "" then acc
          else if (acc.lookup keyLc).isSome then acc
          else acc ++ [(keyLc, v)]) acc).lookup k).isSome := by
  intro l
  induction l with
  | nil => intro acc h; simpa using h
  | cons a t ih =>
    intro acc h
    rw [List.foldl_cons]
    exact ih _ (mergedStep_mono h)

theorem mergedAux_sound {dk : String} (P : String × String → Prop) :
    ∀ (l : List (String × FieldVal)) (acc : List (String × String)),
      (∀ kv ∈ acc, P kv) →
      (∀ k0 fv, (k0, fv) ∈ l → normVal dk k0 fv ≠ "" →
        P (lowerStr k0, normVal dk k0 fv)) →
      ∀ kv ∈ l.foldl (fun acc kv =>
          let keyLc := lowerStr kv.1
          let v := normVal dk kv.1 kv.2
          if v = "" then acc
          else if (acc.lookup keyLc).isSome then acc
          else acc ++ [(keyLc, v)]) acc, P kv := by
  intro l
  induction l with
  | nil => intro acc hacc _ kv hkv; exact hacc kv (by simpa using hkv)
  | cons a t ih =>
    intro acc hacc hl kv hkv
    rw [List.foldl_cons] at hkv
    refine ih _ ?_ (fun k0 fv hm hne => hl k0 fv (by simp [hm]) hne) kv hkv
    intro kv2 hkv2
    dsimp only at hkv2
    split at hkv2
    · exact hacc kv2 hkv2
    · split at hkv2
      · exact hacc kv2 hkv2
      · rcases List.mem_append.1 hkv2 with h1 | h1
        · exact hacc kv2 h1
        · simp at h1
          subst h1
          exact hl a.1 a.2 (by simp) (by assumption)

theorem mergedFields_sound {dk : String} {fields : List (String × FieldVal)}
    {k v : String} (h : (k, v) ∈ mergedFields dk fields) :
    ∃ k0 fv, (k0, fv) ∈ fields ∧ k = lowerStr k0 ∧ v = normVal dk k0 fv ∧ v ≠ "" := by
  rw [mergedFields] at h
  have := mergedAux_sound
    (fun kv => ∃ k0 fv, (k0, fv) ∈ fields ∧ kv.1 = lowerStr k0 ∧
      kv.2 = normVal dk k0 fv ∧ kv.2 ≠ "")
    fields [] (by simp)
    (fun k0 fv hm hne => ⟨k0, fv, hm, rfl, rfl, hne⟩)
    (k, v) h
  simpa using this

theorem mergedFields_complete {dk : String} :
    ∀ (l : List (String × FieldVal)) (acc : List (String × String)) (k0 : String)
      (fv : FieldVal), (k0, fv) ∈ l → normVal dk k0 fv ≠ "" →
      ((l.foldl (fun acc kv =>
          let keyLc := lowerStr kv.1
          let v := normVal dk kv.1 kv.2
          if v = "" then acc
          else if (acc.lookup keyLc).isSome then acc
          else acc ++ [(keyLc, v)]) acc).lookup (lowerStr k0)).isSome := by
  intro l
  induction l with
  | nil => intro acc k0 fv hm; simp at hm
  | cons a t ih =>
    intro acc k0 fv hm hne
    rw [List.foldl_cons]
    rcases List.mem_cons.1 hm with h1 | h1
    · have ha : a = (k0, fv) := h1.symm
      subst ha
      refine mergedFoldl_mono t _ ?_
      dsimp only
      rw [if_neg (by simpa using hne)]
      split
      · assumption
      · exact lookup_append_single
    · exact ih _ k0 fv h1 hne

theorem mergedFields_lookup {dk : String} {fields : List (String × FieldVal)}
    {k0 : String} {fv : FieldVal} (hm : (k0, fv) ∈ fields)
    (hne : normVal dk k0 fv ≠ "") :
    ((mergedFields dk fields).lookup (lowerStr k0)).isSome := by
  rw [mergedFields]
  exact mergedFields_complete fields [] k0 fv hm hne

theorem sum_mem_bounds {l : List ℚ} (h : ∀ x ∈ l, 0 ≤ x ∧ x ≤ 1) :
    0 ≤ l.sum ∧ l.sum ≤ (l.length : ℚ) := by
  induction l with
  | nil => simp
  | cons a t ih =>
    have ha := h a (by simp)
    have ht := ih (fun x hx => h x (by simp [hx]))
    rw [List.sum_cons, List.length_cons]
    push_cast
    constructor
    · linarith [ht.1]
    · linarith [ht.2]

/-- Claim C1, counterexample: with user DOB `1990-02-01` and edited DOB
`1990-02-02` both canonical values are non-empty and different, yet the
re-verification score is 0.55, not the 0.0 the claim requires. -/
theorem claim1_dob_binary_cex :
    parseDob (trimStr "1990-02-01") ≠ "" ∧ parseDob "1990-02-02" ≠ "" ∧
    parseDob (trimStr "1990-02-01") ≠ parseDob "1990-02-02" ∧
    dobConf "1990-02-01" "1990-02-02" = 11/20 ∧ (11/20 : ℚ) ≠ 0 := by
  refine ⟨by decide, by decide, by decide, ?_, by norm_num⟩
  simp only [dobConf]
  rw [if_pos ⟨by decide, by decide⟩, if_neg (by decide)]

/-- Claim C1, amended: when both the user DOB and the edited DOB
canonicalize to non-empty dates, the DOB re-verification score is 1.0
exactly when the canonical dates are equal, and a fixed partial score of
0.55 (never 0.0) otherwise. -/
theorem claim1_dob_binary_amended (u t : String)
    (hu : parseDob (trimStr u) ≠ "") (ht : parseDob t ≠ "") :
    (dobConf u t = 1 ↔ parseDob (trimStr u) = parseDob t) ∧
    (parseDob (trimStr u) ≠ parseDob t → dobConf u t = 11/20) ∧
    dobConf u t ≠ 0 := by
  simp only [dobConf]
  rw [if_pos ⟨hu, ht⟩]
  by_cases he : parseDob (trimStr u) = parseDob t
  · rw [if_pos he]
    exact ⟨⟨fun _ => he, fun _ => rfl⟩, fun hne => absurd he hne, by norm_num⟩
  · rw [if_neg he]
    refine ⟨⟨fun h1 => absurd h1 (by norm_num), fun h2 => absurd h2 he⟩,
      fun _ => rfl, by norm_num⟩

/-- Claim C1, witness: the amended statement at concrete inputs. -/
theorem claim1_dob_binary_witness :
    parseDob (trimStr "1990-02-01") ≠ "" ∧ parseDob "1990-03-04" ≠ "" ∧
    (dobConf "1990-02-01" "1990-03-04" = 1 ↔
      parseDob (trimStr "1990-02-01") = parseDob "1990-03-04") :=
  ⟨by decide, by decide,
    (claim1_dob_binary_amended "1990-02-01" "1990-03-04" (by decide) (by decide)).1⟩

/-- Claim C2, counterexample: `parseDob` reads `01/02/1990` month-first,
so the two sides canonicalize to different ISO dates and the DOB score
of the re-verification handler is 0.55, not 1.0. -/
theorem claim2_e2e_dob_cex :
    parseDob "01/02/1990" = "1990-01-02" ∧ parseDob "1990-02-01" = "1990-02-01" ∧
    parseDob "01/02/1990" ≠ parseDob "1990-02-01" ∧
    dobConf "1990-02-01" "01/02/1990" ≠ 1 := by
  refine ⟨by decide, by decide, by decide, ?_⟩
  have h : dobConf "1990-02-01" "01/02/1990" = 11/20 := by
    simp only [dobConf]
    rw [if_pos ⟨by decide, by decide⟩, if_neg (by decide)]
  rw [h]
  norm_num

/-- Claim C2, amended: the extracted DOB `01/02/1990` canonicalizes to
`1990-01-02`, which differs from the canonical `1990-02-01` of the user
DOB, so comparing them yields the partial DOB score 0.55 rather than
1.0. -/
theorem claim2_e2e_dob_amended :
    parseDob "01/02/1990" = "1990-01-02" ∧ parseDob "1990-02-01" = "1990-02-01" ∧
    dobConf "1990-02-01" "01/02/1990" = 11/20 := by
  refine ⟨by decide, by decide, ?_⟩
  simp only [dobConf]
  rw [if_pos ⟨by decide, by decide⟩, if_neg (by decide)]

/-- Claim C3, counterexample: the input `1/2/345` parses successfully
but its output `345-01-02` has a three-digit year, so it is not of the
canonical ISO shape `YYYY-MM-DD` (whose length is 10). -/
theorem claim3_dayfirst_iso_cex :
    parseDob "1/2/345" = "345-01-02" ∧ parseDob "1/2/345" ≠ "" ∧
    (parseDob "1/2/345").length ≠ 10 := by
  refine ⟨by decide, by decide, by decide⟩

/-- Claim C3, amended: the month/day swap of `parseDob` is exactly the
day-first rule of the claim (swap iff the month slot exceeds 12 and the
other slot is a valid month), and every successful parse renders as
`year-MM-DD` with zero-padded two-digit month and day; the output has
the ISO length 10 exactly when the year has four digits. -/
theorem claim3_dayfirst_iso_amended (s : String) :
    parseDobYMD s = parseDobYMDSpec s ∧
    (∀ y m d, parseDobYMD s = some (y, m, d) →
      parseDob s = renderDob y m d ∧ (pad2 m).length = 2 ∧ (pad2 d).length = 2 ∧
      ((parseDob s).length = 10 ↔ 1000 ≤ y ∧ y ≤ 9999)) := by
  refine ⟨parseDobYMD_eq_spec s, fun y m d h => ?_⟩
  have hb := parseDobYMD_bounds h
  refine ⟨parseDob_eq_render h, pad2_length (by omega), pad2_length (by omega), ?_⟩
  rw [parseDob_length h]
  constructor
  · intro hl
    exact (jsLen_eq_four_iff y).1 (by omega)
  · intro hy
    have := (jsLen_eq_four_iff y).2 hy
    omega

/-- Claim C3, witness: the amended statement at a concrete input. -/
theorem claim3_dayfirst_iso_witness :
    parseDobYMD "01/02/1990" = some (1990, 1, 2) ∧
    parseDob "01/02/1990" = renderDob 1990 1 2 ∧
    ((parseDob "01/02/1990").length = 10 ↔ 1000 ≤ 1990 ∧ 1990 ≤ 9999) := by
  have h := (claim3_dayfirst_iso_amended "01/02/1990").2 1990 1 2 (by decide)
  exact ⟨by decide, h.1, h.2.2.2⟩

/-- Claim C4, counterexample: with an empty user DOB the canonical user
value is empty, yet the handler still scores the DOB field, assigning it
the default confidence 0.6 instead of excluding it. -/
theorem claim4_dob_excluded_cex :
    parseDob (trimStr "") = "" ∧
    (dobSaveFields "" "03/04/1990").lookup "dob" =
      some { value := "03/04/1990", confidence := some (3/5 : ℚ) } ∧
    ((dobSaveFields "" "03/04/1990").lookup "dob").isSome := by
  have hc : dobConf "" "03/04/1990" = 3/5 := by
    simp only [dobConf]
    rw [if_neg (by decide)]
  refine ⟨by decide, ?_, ?_⟩
  · rw [dobSaveFields, hc]
    rfl
  · rw [dobSaveFields]
    rfl

/-- Claim C4, amended: when either side's canonical DOB is empty the
field is not excluded; the handler keeps the initial default 0.6 as the
DOB confidence and as the verification score. -/
theorem claim4_dob_excluded_amended (u t : String)
    (h : parseDob (trimStr u) = "" ∨ parseDob t = "") :
    dobConf u t = 3/5 ∧
    dobSaveFields u t = [("dob", { value := t, confidence := some (3/5 : ℚ) })] ∧
    (dobSaveVerification u t).score = some (3/5 : ℚ) ∧
    (dobSaveVerification u t).overallConfidence = some (3/5 : ℚ) := by
  have hc : dobConf u t = 3/5 := by
    simp only [dobConf]
    rw [if_neg (by tauto)]
  refine ⟨hc, ?_, ?_, ?_⟩
  · rw [dobSaveFields, hc]
  · rw [dobSaveVerification, hc]
  · rw [dobSaveVerification, hc]

/-- Claim C4, witness: the amended statement at concrete inputs. -/
theorem claim4_dob_excluded_witness :
    parseDob (trimStr "") = "" ∧
    dobSaveFields "" "03/05/1990" =
      [("dob", { value := "03/05/1990", confidence := some (3/5 : ℚ) })] :=
  ⟨by decide, (claim4_dob_excluded_amended "" "03/05/1990" (Or.inl (by decide))).2.1⟩

/-- Claim C5, counterexample: a document with zero fields and no
verification score renders exactly like a document whose only field has
confidence 0 — same 0 score, same percentage, same warning badge — so
the zero-fields outcome is not distinguishable from a genuine low-score
mismatch. -/
theorem claim5_insufficient_cex :
    panelScore none [] = 0 ∧
    (panelPct (panelScore none []), panelBadge (panelScore none [])) =
      (panelPct (panelScore none [{ value := "John", confidence := some 0 }]),
        panelBadge (panelScore none [{ value := "John", confidence := some 0 }])) := by
  have hs : panelScore none [{ value := "John", confidence := some 0 }] = 0 := by
    show avgConf [{ value := "John", confidence := some 0 }] = 0
    rw [avgConf]
    simp [effConf]
  refine ⟨rfl, ?_⟩
  rw [hs]
  rfl

/-- Claim C5, amended: when zero fields are available and the response
carries no numeric verification score, the fallback score is 0 and is
rendered like any other low score (0 percent, warning badge), with no
distinct insufficient-data signal: any single field of confidence 0
produces the identical display. -/
theorem claim5_insufficient_amended (f : FieldVal) (hf : f.confidence = some 0) :
    avgConf [] = 0 ∧ panelScore none [] = 0 ∧
    panelBadge (panelScore none []) = "bg-warning text-dark" ∧
    panelPct (panelScore none []) = 0 ∧
    panelScore none [f] = panelScore none [] ∧
    panelBadge (panelScore none [f]) = panelBadge (panelScore none []) ∧
    panelPct (panelScore none [f]) = panelPct (panelScore none []) := by
  have he : effConf f = 0 := by
    rw [effConf, hf]
    rfl
  have hs : panelScore none [f] = 0 := by
    show avgConf [f] = 0
    rw [avgConf]
    simp [he]
  have h00 : panelScore none [] = 0 := rfl
  have hb : panelBadge 0 = "bg-warning text-dark" := by
    rw [panelBadge, if_pos (by norm_num)]
  have hp : panelPct 0 = 0 := by
    rw [panelPct, jsRound]
    have h0 : (0 : ℚ) * 100 + 1/2 = 1/2 := by norm_num
    rw [h0, Int.floor_eq_zero_iff, Set.mem_Ico]
    norm_num
  refine ⟨rfl, rfl, ?_, ?_, ?_, ?_, ?_⟩
  · rw [h00, hb]
  · rw [h00, hp]
  · rw [hs, h00]
  · rw [hs, h00]
  · rw [hs, h00]

/-- Claim C5, witness: the amended statement at a concrete field. -/
theorem claim5_insufficient_witness :
    panelScore none [] = 0 ∧
    panelScore none [{ value := "John", confidence := some 0 }] = panelScore none [] := by
  have h := claim5_insufficient_amended { value := "John", confidence := some 0 } rfl
  exact ⟨h.1, h.2.2.2.2.1⟩

/-- Claim C6, confirmed: for a document whose key has a filter list the
displayed field set is contained in that fixed allowed-key list, and
every displayed value is either the trimmed mapped-field value for that
key or (on the address document only) a substring of the document's own
raw OCR text; the handwritten key has no filter list, and its merged
display contains exactly the mapped fields with non-empty normalized
values, each value derived from its own mapped field. -/
theorem claim6_doctype_filtering :
    (∀ key fks fields rawText k v, filterKeys key = some fks →
      (k, v) ∈ collectedFor key fields rawText →
      k ∈ fks ∧
        ((∃ fv, lookupField fields k = some fv ∧ v = trimStr fv.value) ∨
          (key = "address" ∧ v.data <:+: rawText.data))) ∧
    filterKeys "handwritten" = none ∧
    (∀ fields k v, (k, v) ∈ mergedFields "handwritten" fields →
      ∃ k0 fv, (k0, fv) ∈ fields ∧ k = lowerStr k0 ∧
        v = normVal "handwritten" k0 fv ∧ v ≠ "") ∧
    (∀ fields k0 fv, (k0, fv) ∈ fields → normVal "handwritten" k0 fv ≠ "" →
      ((mergedFields "handwritten" fields).lookup (lowerStr k0)).isSome) := by
  refine ⟨?_, rfl, fun fields k v h => mergedFields_sound h,
    fun fields k0 fv hm hne => mergedFields_lookup hm hne⟩
  intro key fks fields rawText k v hf hm
  rw [collectedFor, hf] at hm
  dsimp only at hm
  by_cases hk : key = "address"
  · subst hk
    rw [if_pos rfl] at hm
    have hfks : fks = ["address", "addr", "city", "state", "pincode"] := by
      have h2 : filterKeys "address" = some ["address", "addr", "city", "state", "pincode"] :=
        rfl
      rw [h2] at hf
      exact (Option.some.inj hf).symm
    subst hfks
    rw [collectedAddress] at hm
    split at hm
    · have h3 := collectedBase_mem hm
      exact ⟨h3.1, Or.inl h3.2⟩
    · rcases addIfMissing_mem hm with h1 | h1
      · rcases addIfMissing_mem h1 with h2 | h2
        · rcases addIfMissing_mem h2 with h3 | h3
          · have h4 := collectedBase_mem h3
            exact ⟨h4.1, Or.inl h4.2⟩
          · obtain ⟨hk1, hc, hv⟩ := h3
            subst hk1
            exact ⟨by decide, Or.inr ⟨rfl, labelFromRaw_substr hc⟩⟩
        · obtain ⟨hk1, hc, hv⟩ := h2
          subst hk1
          exact ⟨by decide, Or.inr ⟨rfl, labelFromRaw_substr hc⟩⟩
      · obtain ⟨hk1, hc, hv⟩ := h1
        subst hk1
        exact ⟨by decide, Or.inr ⟨rfl, pincodeFromRaw_substr hc⟩⟩
  · rw [if_neg hk] at hm
    have h3 := collectedBase_mem hm
    exact ⟨h3.1, Or.inl h3.2⟩

/-- Claim C6, witness: the filtering statement at a concrete address
document whose city is surfaced from the raw text. -/
theorem claim6_doctype_filtering_witness :
    ("city", "Pune") ∈
      collectedFor "address" [("address", { value := "12 Elm St", confidence := some 1 })]
        "City: Pune" ∧
    "city" ∈ ["address", "addr", "city", "state", "pincode"] := by
  refine ⟨by decide, ?_⟩
  exact (claim6_doctype_filtering.1 "address" _
    [("address", { value := "12 Elm St", confidence := some 1 })]
    "City: Pune" "city" "Pune" rfl (by decide)).1

/-- Claim C7, counterexample: `parseDob "1/2/345"` is `345-01-02`, but
re-parsing that output swaps 345 into the day slot and fails, so the
canonicalizer is not idempotent on this input. -/
theorem claim7_idempotent_cex :
    parseDob "1/2/345" = "345-01-02" ∧
    parseDob (parseDob "1/2/345") = "" ∧
    parseDob (parseDob "1/2/345") ≠ parseDob "1/2/345" := by
  refine ⟨by decide, by decide, by decide⟩

/-- Claim C7, amended: `parseDob` is idempotent on every input whose
parse fails as well as on every input whose parsed year has four digits
(1000..9999); only outputs carrying a year outside that range (reachable
via the fallback two-digit branch, e.g. a three-digit year) fail to
re-parse. -/
theorem claim7_idempotent_amended (s : String)
    (h : ∀ y m d, parseDobYMD s = some (y, m, d) → 1000 ≤ y ∧ y ≤ 9999) :
    parseDob (parseDob s) = parseDob s :=
  parseDob_idem_of_year h

/-- Claim C7, witness: idempotence at a concrete input. -/
theorem claim7_idempotent_witness :
    parseDob (parseDob "31/12/1995") = parseDob "31/12/1995" := by
  refine claim7_idempotent_amended "31/12/1995" ?_
  intro y m d h
  rw [show parseDobYMD "31/12/1995" = some (1995, 12, 31) from by decide] at h
  simp at h
  omega

/-- Claim C8, confirmed: the DOB edit confidence always lies in the unit
interval, and the average-confidence fallback lies in the unit interval
whenever every present field confidence does. -/
theorem claim8_unit_interval (u t : String) (fields : List FieldVal)
    (hf : ∀ f ∈ fields, ∀ c, f.confidence = some c → 0 ≤ c ∧ c ≤ 1) :
    (0 ≤ dobConf u t ∧ dobConf u t ≤ 1) ∧
    0 ≤ avgConf fields ∧ avgConf fields ≤ 1 := by
  constructor
  · simp only [dobConf]
    split
    · split
      · norm_num
      · norm_num
    · norm_num
  · have hb : ∀ x ∈ fields.map effConf, 0 ≤ x ∧ x ≤ 1 := by
      intro x hx
      rcases List.mem_map.1 hx with ⟨f, hfm, hfe⟩
      subst hfe
      rw [effConf]
      rcases hc : f.confidence with _ | c
      · simp
      · simpa using hf f hfm c hc
    have hs := sum_mem_bounds hb
    rw [avgConf]
    split
    · norm_num
    · rename_i hne
      have hpos : 0 < (fields.length : ℚ) := by
        exact_mod_cast Nat.pos_of_ne_zero hne
      constructor
      · exact div_nonneg hs.1 hpos.le
      · rw [div_le_one hpos]
        have h2 := hs.2
        rwa [List.length_map] at h2

/-- Claim C8, witness: the unit-interval statement at concrete inputs. -/
theorem claim8_unit_interval_witness :
    (0 ≤ dobConf "1990-02-01" "xyz" ∧ dobConf "1990-02-01" "xyz" ≤ 1) ∧
    0 ≤ avgConf [{ value := "a", confidence := some (1/2) }] ∧
    avgConf [{ value := "a", confidence := some (1/2) }] ≤ 1 := by
  refine claim8_unit_interval "1990-02-01" "xyz" _ ?_
  intro f hfm c hc
  simp at hfm
  subst hfm
  simp at hc
  subst hc
  norm_num

/-- Claim C9, confirmed: the decision thresholds are inclusive lower
bounds (MATCH at 0.85, REVIEW at 0.60, MISMATCH below), and a score of
exactly 0.60 lands in the non-warning category both for the decision
(REVIEW) and for the frontend badge thresholds of `src/unnamed/part_000`
lines 546 and 588. -/
theorem claim9_thresholds (q : ℚ) :
    (decisionOf q = "MATCH" ↔ 85/100 ≤ q) ∧
    (decisionOf q = "REVIEW" ↔ 60/100 ≤ q ∧ q < 85/100) ∧
    (decisionOf q = "MISMATCH" ↔ q < 60/100) ∧
    decisionOf (60/100) = "REVIEW" ∧
    panelBadge (60/100) = "bg-success" ∧
    docBadge 60 = "bg-success" := by
  have hd : decisionOf (60/100 : ℚ) = "REVIEW" := by
    rw [decisionOf, if_neg (by norm_num), if_pos (by norm_num)]
  have hpb : panelBadge (60/100 : ℚ) = "bg-success" := by
    rw [panelBadge, if_neg (by norm_num)]
  have hdb : docBadge 60 = "bg-success" := by
    rw [docBadge, if_neg (by norm_num)]
  refine ⟨?_, ?_, ?_, hd, hpb, hdb⟩
  · rw [decisionOf]
    constructor
    · intro h
      by_contra hc
      rw [if_neg hc] at h
      split at h <;> simp_all
    · intro h
      rw [if_pos h]
  · rw [decisionOf]
    constructor
    · intro h
      by_cases h1 : 85/100 ≤ q
      · rw [if_pos h1] at h
        simp at h
      · rw [if_neg h1] at h
        push_neg at h1
        split at h <;> simp_all
    · intro ⟨h1, h2⟩
      rw [if_neg (by linarith), if_pos h1]
  · rw [decisionOf]
    constructor
    · intro h
      by_cases h1 : 85/100 ≤ q
      · rw [if_pos h1] at h
        simp at h
      · rw [if_neg h1] at h
        by_cases h2 : 60/100 ≤ q
        · rw [if_pos h2] at h
          simp at h
        · linarith [not_le.1 h2]
    · intro h
      rw [if_neg (by linarith), if_neg (by linarith)]

/-- Claim C9, witness: the thresholds at concrete scores. -/
theorem claim9_thresholds_witness :
    decisionOf (85/100) = "MATCH" ∧ decisionOf (60/100) = "REVIEW" ∧
    decisionOf (59/100) = "MISMATCH" ∧ panelBadge (60/100) = "bg-success" :=
  ⟨(claim9_thresholds (85/100)).1.2 (by norm_num),
    (claim9_thresholds (60/100)).2.2.2.1,
    (claim9_thresholds (59/100)).2.2.1.2 (by norm_num),
    (claim9_thresholds (60/100)).2.2.2.2.1⟩

/-- Claim C10, counterexample: the two frontends disagree on the
document type sent for the handwritten kind: `src/unnamed/part_000`
sends the string `handwritten` while `src/frontend/app.js` maps it to
the JS literal `null`. -/
theorem claim10_doctype_cex :
    documentTypeMain "handwritten" = some "handwritten" ∧
    documentTypeAlt "handwritten" = none ∧
    documentTypeMain "handwritten" ≠ documentTypeAlt "handwritten" := by
  refine ⟨by decide, by decide, by decide⟩

/-- Claim C10, amended: the two frontends send identical document types
for every key except the handwritten kind — both map name to `aadhar`,
address to `dl` and dob to `birth` — but for `handwritten` the unnamed
frontend sends `handwritten` while `frontend/app.js` sends null. -/
theorem claim10_doctype_amended (k : String) (hk : k ≠ "handwritten") :
    documentTypeMain k = documentTypeAlt k ∧
    documentTypeMain "name" = some "aadhar" ∧
    documentTypeMain "address" = some "dl" ∧
    documentTypeMain "dob" = some "birth" ∧
    documentTypeAlt "name" = some "aadhar" ∧
    documentTypeAlt "address" = some "dl" ∧
    documentTypeAlt "dob" = some "birth" ∧
    documentTypeMain "handwritten" = some "handwritten" ∧
    documentTypeAlt "handwritten" = none := by
  refine ⟨?_, by decide, by decide, by decide, by decide, by decide, by decide,
    by decide, by decide⟩
  rw [documentTypeMain, documentTypeAlt]
  by_cases h1 : k = "name"
  · simp [h1]
  · by_cases h2 : k = "address"
    · simp [h1, h2]
    · by_cases h3 : k = "dob"
      · simp [h1, h2, h3]
      · simp [h1, h2, h3, hk]

/-- Claim C10, witness: the agreement at a concrete key. -/
theorem claim10_doctype_witness :
    documentTypeMain "name" = documentTypeAlt "name" ∧
    documentTypeMain "handwritten" = some "handwritten" ∧
    documentTypeAlt "handwritten" = none :=
  ⟨(claim10_doctype_amended "name" (by decide)).1,
    (claim10_doctype_amended "name" (by decide)).2.2.2.2.2.2.2.1,
    (claim10_doctype_amended "name" (by decide)).2.2.2.2.2.2.2.2⟩
